import Mathlib

/-!
Verification of the virtual address-space manager of this repository
(src/os/src/mm/memory_set.rs and its callers in src/os/src/task and
src/os/src/syscall).

The file shallowly embeds the data model and the operations of
MemorySet, MapArea and their collaborators.  Code that is present under
src/ (MemorySet::mmap, MemorySet::munmap, MemorySet::translate,
MemorySet::shrink_to, MemorySet::append_to, has_mapped, has_unmapped,
is_critical, push_lazy, map_trampoline, TaskControlBlock::change_program_brk,
sys_munmap) is translated from the source.  The leaf types the source
consumes (VPNRange, MapArea internals, PageTable, the frame allocator,
the config constants) are not in the provided sources; those are modelled
from the specification, and each such definition says so in its doc
comment.
-/

set_option maxHeartbeats 1000000

/-- Modelled from the spec: page size is a compile-time constant (config::PAGE_SIZE). -/
def PAGE_SIZE : Nat := 4096

/-- Modelled from the spec: the trampoline code page sits at the top of the
address space (config::TRAMPOLINE = usize::MAX - PAGE_SIZE + 1 on a 64-bit target). -/
def TRAMPOLINE : Nat := 2 ^ 64 - PAGE_SIZE

/-- Modelled from the spec: the trap-context page sits directly below the
trampoline (config::TRAP_CONTEXT_BASE = TRAMPOLINE - PAGE_SIZE). -/
def TRAP_CONTEXT_BASE : Nat := TRAMPOLINE - PAGE_SIZE

/-- Modelled from the spec: VirtAddr::floor, byte address to page number by floor division. -/
def vaFloor (va : Nat) : Nat := va / PAGE_SIZE

/-- Modelled from the spec: VirtAddr::ceil, byte address to page number by ceiling division. -/
def vaCeil (va : Nat) : Nat := (va + PAGE_SIZE - 1) / PAGE_SIZE

/-- Modelled from the spec: a Page-Range Interval, a [start, end) pair of
virtual page numbers, end exclusive (the source's VPNRange). -/
structure VPNRange where
  l : Nat
  r : Nat
deriving DecidableEq, Repr

namespace VPNRange

/-- Modelled from the spec: construct a range from its two boundaries. -/
def new (a b : Nat) : VPNRange := ⟨a, b⟩

/-- Modelled from the spec: a range of a given length starting at a page. -/
def by_len (v n : Nat) : VPNRange := ⟨v, v + n⟩

/-- Modelled from the spec: the inclusive lower boundary. -/
def get_start (s : VPNRange) : Nat := s.l

/-- Modelled from the spec: the exclusive upper boundary. -/
def get_end (s : VPNRange) : Nat := s.r

/-- Modelled from the spec: a range is empty when it holds no page. -/
def is_empty (s : VPNRange) : Bool := decide (s.r ≤ s.l)

/-- Modelled from the spec: page membership. -/
def contains (s : VPNRange) (v : Nat) : Bool := decide (s.l ≤ v ∧ v < s.r)

/-- Modelled from the spec: two ranges intersect when they share a page. -/
def intersects (s t : VPNRange) : Bool := decide (max s.l t.l < min s.r t.r)

/-- Modelled from the spec: the number of pages yielded by forward iteration
(into_iter().count() of the source). -/
def count (s : VPNRange) : Nat := s.r - s.l

/-- Modelled from the spec: forward iteration over the contained pages. -/
def pages (s : VPNRange) : List Nat := (List.range (s.r - s.l)).map (fun i => s.l + i)

/-- Modelled from the spec: exclude(target) partitions self into the portion
before target, the portion after target, and the intersection, returned as
(left remainder, right remainder, intersection).  When the two ranges overlap
the three pieces re-union to self; when they do not overlap the intersection
is empty and self is handed back whole as one remainder. -/
def exclude (s t : VPNRange) : VPNRange × VPNRange × VPNRange :=
  let ml := max s.l t.l
  let mr := min s.r t.r
  if ml < mr then
    (⟨s.l, ml⟩, ⟨mr, s.r⟩, ⟨ml, mr⟩)
  else if s.r ≤ t.l then
    (s, ⟨s.r, s.r⟩, ⟨s.r, s.r⟩)
  else
    (⟨s.l, s.l⟩, s, ⟨s.l, s.l⟩)

end VPNRange

/-- The error kinds of the mm module: the variants of src/os/src/mm/err.rs
(TranslateError, MapError, UnMapError) together with the AreaError variants
named by memory_set.rs, flattened into the one error type carried by MMResult. -/
inductive MMErr where
  | NotEnoughMemory
  | Mapped
  | UnMapped
  | NotMapped
  | AreaRangeNotInclude
  | NoMatchingArea
  | AreaCritical
  | AreaHasMappedPortion
  | AreaHasUnmappedPortion
deriving DecidableEq, Repr

/-- Modelled from the spec: a Permission Set, a bit-set of
Read / Write / Execute / UserAccessible carried unchanged by an area. -/
structure MapPermission where
  r : Bool
  w : Bool
  x : Bool
  u : Bool
deriving DecidableEq, Repr

/-- Modelled from the spec: the Backing Policy of a Mapped Area. -/
inductive MapType where
  | Identical
  | Framed
deriving DecidableEq, Repr

/-- Modelled from the spec: a page-table entry holding the backing physical
page number and the permission flags. -/
structure PageTableEntry where
  ppn : Nat
  flags : MapPermission
deriving DecidableEq, Repr

/-- Modelled from the spec: the Page Table as the finite map of currently
installed entries, virtual page number to entry. -/
abbrev PageTable := List (Nat × PageTableEntry)

namespace PageTable

/-- Modelled from the spec: look an installed entry up. -/
def lookup : PageTable → Nat → Option PageTableEntry
  | [], _ => none
  | p :: rest, v => if p.1 = v then some p.2 else lookup rest v

/-- Modelled from the spec: remove an installed entry. -/
def remove : PageTable → Nat → PageTable
  | [], _ => []
  | p :: rest, v => if p.1 = v then remove rest v else p :: remove rest v

/-- Modelled from the spec: map(vpn, ppn, permission) installs one entry and
reports Mapped when one is already installed. -/
def map (pt : PageTable) (v : Nat) (e : PageTableEntry) : Option MMErr × PageTable :=
  match lookup pt v with
  | some _ => (some MMErr.Mapped, pt)
  | none => (none, (v, e) :: pt)

/-- Modelled from the spec: unmap(vpn) removes one entry and reports UnMapped
when none is installed. -/
def unmap (pt : PageTable) (v : Nat) : Option MMErr × PageTable :=
  match lookup pt v with
  | some _ => (none, remove pt v)
  | none => (some MMErr.UnMapped, pt)

/-- Modelled from the spec: translate(vpn) returns the installed entry and
reports NotMapped when none is installed. -/
def translate (pt : PageTable) (v : Nat) : Except MMErr PageTableEntry :=
  match lookup pt v with
  | some e => Except.ok e
  | none => Except.error MMErr.NotMapped

end PageTable

/-- Modelled from the spec: the external Frame Allocator, allocating and
freeing single physical frames; exhaustion is a first-class outcome.  Frames
0 .. cap-1 are handed out in order; freed frames are recycled first. -/
structure FrameAllocator where
  next : Nat
  cap : Nat
  recycled : List Nat
deriving DecidableEq, Repr

namespace FrameAllocator

/-- Modelled from the spec: allocate() -> Result of a frame, none on exhaustion. -/
def alloc (fa : FrameAllocator) : Option (Nat × FrameAllocator) :=
  match fa.recycled with
  | p :: rest => some (p, { fa with recycled := rest })
  | [] =>
    if fa.next < fa.cap then
      some (fa.next, { fa with next := fa.next + 1 })
    else
      none

/-- Modelled from the spec: free(frame), infallible. -/
def dealloc (fa : FrameAllocator) (p : Nat) : FrameAllocator :=
  { fa with recycled := p :: fa.recycled }

/-- The number of frames currently available from the allocator. -/
def free_count (fa : FrameAllocator) : Nat := fa.recycled.length + (fa.cap - fa.next)

end FrameAllocator

/-- Look a frame owned by an area up by its virtual page number. -/
def lookupFrames : List (Nat × Nat) → Nat → Option Nat
  | [], _ => none
  | p :: rest, v => if p.1 = v then some p.2 else lookupFrames rest v

/-- Modelled from the spec: a Mapped Area: a page-range interval, its backing
policy, its permission set and, for framed areas, the frames it has allocated
so far (virtual page number to owned physical frame). -/
structure MapArea where
  range : VPNRange
  map_type : MapType
  perm : MapPermission
  frames : List (Nat × Nat)
deriving DecidableEq, Repr

namespace MapArea

/-- MapArea::new of the source: boundaries are the floor of the start address
and the ceiling of the end address; no frame is owned yet. -/
def new (start_va end_va : Nat) (ty : MapType) (p : MapPermission) : MapArea :=
  { range := ⟨vaFloor start_va, vaCeil end_va⟩, map_type := ty, perm := p, frames := [] }

/-- get_range of the source. -/
def get_range (a : MapArea) : VPNRange := a.range

/-- Modelled from the spec: map(page_table).  An Identical area installs an
identity entry for every page immediately, propagating Mapped on a clash and
keeping the entries already installed; a Framed area with lazy semantics
installs nothing and takes no frame. -/
def mapIdentical (p : MapPermission) : List Nat → PageTable → Option MMErr × PageTable
  | [], pt => (none, pt)
  | v :: vs, pt =>
    match PageTable.map pt v ⟨v, p⟩ with
    | (some e, pt') => (some e, pt')
    | (none, pt') => mapIdentical p vs pt'

/-- Modelled from the spec: map(page_table), see mapIdentical. -/
def map (a : MapArea) (pt : PageTable) : Option MMErr × PageTable :=
  match a.map_type with
  | MapType.Identical => mapIdentical a.perm a.range.pages pt
  | MapType.Framed => (none, pt)

/-- Modelled from the spec: the per-page loop of ensure; every page lacking a
frame gets one from the allocator and a page-table entry with the area's
permission; on failure the frames already taken in the call stay owned and
installed. -/
def ensurePages (p : MapPermission) :
    List Nat → List (Nat × Nat) → PageTable → FrameAllocator →
    Option MMErr × List (Nat × Nat) × PageTable × FrameAllocator
  | [], fr, pt, fa => (none, fr, pt, fa)
  | v :: vs, fr, pt, fa =>
    match lookupFrames fr v with
    | some _ => ensurePages p vs fr pt fa
    | none =>
      match FrameAllocator.alloc fa with
      | none => (some MMErr.NotEnoughMemory, fr, pt, fa)
      | some (f, fa') =>
        let m := PageTable.map pt v ⟨f, p⟩
        match m.1 with
        | some e => (some e, fr, m.2, FrameAllocator.dealloc fa' f)
        | none => ensurePages p vs ((v, f) :: fr) m.2 fa'

/-- Modelled from the spec: ensure(page_table, subrange) for the Framed
policy; for the Identical policy every page was installed by map already and
nothing is to do. -/
def ensure_range (a : MapArea) (pt : PageTable) (fa : FrameAllocator) (sub : VPNRange) :
    Option MMErr × MapArea × PageTable × FrameAllocator :=
  match a.map_type with
  | MapType.Identical => (none, a, pt, fa)
  | MapType.Framed =>
    let r := ensurePages a.perm sub.pages a.frames pt fa
    (r.1, { a with frames := r.2.1 }, r.2.2.1, r.2.2.2)

/-- Modelled from the spec: ensure_all forces a frame for every page of the area. -/
def ensure_all (a : MapArea) (pt : PageTable) (fa : FrameAllocator) :
    Option MMErr × MapArea × PageTable × FrameAllocator :=
  ensure_range a pt fa a.range

/-- Modelled from the spec: split(boundary_page) divides the area in two at the
boundary, partitioning the owned frames by page-number membership; no frame is
copied, duplicated or freed. -/
def split (a : MapArea) (b : Nat) : MapArea × MapArea :=
  ({ a with range := ⟨a.range.l, b⟩, frames := a.frames.filter (fun p => decide (p.1 < b)) },
   { a with range := ⟨b, a.range.r⟩, frames := a.frames.filter (fun p => decide (b ≤ p.1)) })

/-- Modelled from the spec: the per-page loop of unmap and shrink: each visited
page whose entry is installed is removed from the page table and its owned
frame (Framed) goes back to the allocator; a page whose installation the area
bookkeeping promises but the page table lacks reports UnMapped. -/
def releasePages (ty : MapType) :
    List Nat → List (Nat × Nat) → PageTable → FrameAllocator →
    Option MMErr × List (Nat × Nat) × PageTable × FrameAllocator
  | [], fr, pt, fa => (none, fr, pt, fa)
  | v :: vs, fr, pt, fa =>
    match ty with
    | MapType.Identical =>
      let u := PageTable.unmap pt v
      match u.1 with
      | some e => (some e, fr, u.2, fa)
      | none => releasePages ty vs fr u.2 fa
    | MapType.Framed =>
      match lookupFrames fr v with
      | none => releasePages ty vs fr pt fa
      | some f =>
        let u := PageTable.unmap pt v
        match u.1 with
        | some e => (some e, fr, u.2, fa)
        | none =>
          releasePages ty vs (fr.filter (fun p => decide (p.1 ≠ v))) u.2
            (FrameAllocator.dealloc fa f)

/-- Modelled from the spec: unmap(page_table) removes every installed entry
belonging to the area and releases every owned frame. -/
def unmap (a : MapArea) (pt : PageTable) (fa : FrameAllocator) :
    Option MMErr × MapArea × PageTable × FrameAllocator :=
  let r := releasePages a.map_type a.range.pages a.frames pt fa
  (r.1, { a with frames := r.2.1 }, r.2.2.1, r.2.2.2)

/-- Modelled from the spec: dropping an area without explicit unmap still
releases every owned frame back to the allocator. -/
def dropFrames (a : MapArea) (fa : FrameAllocator) : FrameAllocator :=
  a.frames.foldl (fun acc p => FrameAllocator.dealloc acc p.2) fa

/-- Modelled from the spec: shrink_to(page_table, new_end) unmaps and frees the
pages falling outside the new upper bound, then adjusts the bound. -/
def shrink_to (a : MapArea) (pt : PageTable) (fa : FrameAllocator) (new_end : Nat) :
    Option MMErr × MapArea × PageTable × FrameAllocator :=
  let r := releasePages a.map_type (VPNRange.new new_end a.range.r).pages a.frames pt fa
  match r.1 with
  | none =>
    (none, { a with range := ⟨a.range.l, new_end⟩, frames := r.2.1 }, r.2.2.1, r.2.2.2)
  | some e => (some e, { a with frames := r.2.1 }, r.2.2.1, r.2.2.2)

/-- Modelled from the spec: append_to(page_table, new_end) grows the range
without installing entries, the new pages being lazily backed. -/
def append_to (a : MapArea) (pt : PageTable) (fa : FrameAllocator) (new_end : Nat) :
    Option MMErr × MapArea × PageTable × FrameAllocator :=
  (none, { a with range := ⟨a.range.l, new_end⟩ }, pt, fa)

end MapArea

/-- The address space of the source: one page table and the tracked areas. -/
structure MemorySet where
  page_table : PageTable
  areas : List MapArea
deriving DecidableEq, Repr

/-- Modelled from the spec: the page the trampoline code lives in physically
(the strampoline linker symbol, outside the provided sources). -/
def strampolinePpn : Nat := 2 ^ 20

namespace MemorySet

/-- MemorySet::new_bare of the source: an empty address space. -/
def new_bare : MemorySet := { page_table := [], areas := [] }

/-- push_lazy of the source, for the data = None case used by mmap and the
kernel regions: map the area (cheap, installs nothing for Framed) and keep it;
on a map failure the area is dropped and the error returned. -/
def push_lazy (ms : MemorySet) (fa : FrameAllocator) (area : MapArea) :
    Option MMErr × MemorySet × FrameAllocator :=
  let m := MapArea.map area ms.page_table
  match m.1 with
  | some e => (some e, { ms with page_table := m.2 }, fa)
  | none =>
    (none, { ms with page_table := m.2, areas := ms.areas ++ [area] }, fa)

/-- map_trampoline of the source: the trampoline entry is installed directly
in the page table and is not collected by the areas. -/
def map_trampoline (ms : MemorySet) : Option MMErr × MemorySet :=
  let m := PageTable.map ms.page_table (vaFloor TRAMPOLINE)
      ⟨strampolinePpn, ⟨true, false, true, false⟩⟩
  (m.1, { ms with page_table := m.2 })

/-- has_mapped of the source: some tracked area intersects the given range. -/
def has_mapped (ms : MemorySet) (range : VPNRange) : Bool :=
  ms.areas.any (fun a => (MapArea.get_range a).intersects range)

/-- has_unmapped of the source: the pages of the given range covered by
tracked areas, counted through exclude, fall short of (or differ from) the
page count of the range. -/
def has_unmapped (ms : MemorySet) (range : VPNRange) : Bool :=
  decide ((ms.areas.map
      (fun a => ((MapArea.get_range a).exclude range).2.2.count)).sum ≠ range.count)

/-- is_critical of the source: the trampoline page and the trap-context page
cannot be unmapped. -/
def is_critical (_ms : MemorySet) (vpn : Nat) : Bool :=
  decide (vpn = vaFloor TRAMPOLINE ∨ vpn = vaFloor TRAP_CONTEXT_BASE)

/-- find_area_ensure of the source: the first area containing the page is
forced to back that single page; with no such area the lookup reports
AreaRangeNotInclude. -/
def findEnsure (vpn : Nat) :
    List MapArea → PageTable → FrameAllocator →
    Option MMErr × List MapArea × PageTable × FrameAllocator
  | [], pt, fa => (some MMErr.AreaRangeNotInclude, [], pt, fa)
  | a :: rest, pt, fa =>
    if (MapArea.get_range a).contains vpn then
      let r := MapArea.ensure_range a pt fa (VPNRange.by_len vpn 1)
      (r.1, r.2.1 :: rest, r.2.2.1, r.2.2.2)
    else
      let r := findEnsure vpn rest pt fa
      (r.1, a :: r.2.1, r.2.2.1, r.2.2.2)

/-- translate of the source: force the page in through find_area_ensure, then
read its entry from the page table. -/
def translate (ms : MemorySet) (fa : FrameAllocator) (vpn : Nat) :
    Except MMErr PageTableEntry × MemorySet × FrameAllocator :=
  let r := findEnsure vpn ms.areas ms.page_table fa
  match r.1 with
  | some e => (Except.error e, ⟨r.2.2.1, r.2.1⟩, r.2.2.2)
  | none => (PageTable.translate r.2.2.1 vpn, ⟨r.2.2.1, r.2.1⟩, r.2.2.2)

/-- The in-place update of the area found by shrink_to of the source. -/
def shrinkFind (startVpn newEndVpn : Nat) :
    List MapArea → PageTable → FrameAllocator →
    Option MMErr × List MapArea × PageTable × FrameAllocator
  | [], pt, fa => (some MMErr.NoMatchingArea, [], pt, fa)
  | a :: rest, pt, fa =>
    if (MapArea.get_range a).get_start = startVpn then
      let r := MapArea.shrink_to a pt fa newEndVpn
      (r.1, r.2.1 :: rest, r.2.2.1, r.2.2.2)
    else
      let r := shrinkFind startVpn newEndVpn rest pt fa
      (r.1, a :: r.2.1, r.2.2.1, r.2.2.2)

/-- shrink_to of the source: the single area starting at the given address is
shrunk; with no such area the call reports NoMatchingArea. -/
def shrink_to (ms : MemorySet) (fa : FrameAllocator) (start new_end : Nat) :
    Option MMErr × MemorySet × FrameAllocator :=
  let r := shrinkFind (vaFloor start) (vaCeil new_end) ms.areas ms.page_table fa
  (r.1, ⟨r.2.2.1, r.2.1⟩, r.2.2.2)

/-- The in-place update of the area found by append_to of the source. -/
def appendFind (startVpn newEndVpn : Nat) :
    List MapArea → PageTable → FrameAllocator →
    Option MMErr × List MapArea × PageTable × FrameAllocator
  | [], pt, fa => (some MMErr.NoMatchingArea, [], pt, fa)
  | a :: rest, pt, fa =>
    if (MapArea.get_range a).get_start = startVpn then
      let r := MapArea.append_to a pt fa newEndVpn
      (r.1, r.2.1 :: rest, r.2.2.1, r.2.2.2)
    else
      let r := appendFind startVpn newEndVpn rest pt fa
      (r.1, a :: r.2.1, r.2.2.1, r.2.2.2)

/-- append_to of the source: the single area starting at the given address is
grown; with no such area the call reports NoMatchingArea. -/
def append_to (ms : MemorySet) (fa : FrameAllocator) (start new_end : Nat) :
    Option MMErr × MemorySet × FrameAllocator :=
  let r := appendFind (vaFloor start) (vaCeil new_end) ms.areas ms.page_table fa
  (r.1, ⟨r.2.2.1, r.2.1⟩, r.2.2.2)

/-- mmap of the source: reject a range touching a critical page, reject a
range intersecting a tracked area, otherwise push the new Framed area lazily
with no initial data. -/
def mmap (ms : MemorySet) (fa : FrameAllocator) (start_va end_va : Nat)
    (permission : MapPermission) : Option MMErr × MemorySet × FrameAllocator :=
  let area := MapArea.new start_va end_va MapType.Framed permission
  if (MapArea.get_range area).pages.any (fun v => is_critical ms v) then
    (some MMErr.AreaCritical, ms, fa)
  else if has_mapped ms (MapArea.get_range area) then
    (some MMErr.AreaHasMappedPortion, ms, fa)
  else
    push_lazy ms fa area

/-- The per-area loop of munmap of the source: an area untouched by the target
is kept; a touched area is split into a left piece, a middle piece and a right
piece, the nonempty outer pieces are kept and the middle piece is unmapped and
dropped.  On an unmap failure the kept pieces so far stay, the remaining areas
are dropped (their frames going back to the allocator as for any drop) and the
error is reported. -/
def munmapAreas (target : VPNRange) :
    List MapArea → PageTable → FrameAllocator →
    Option MMErr × List MapArea × PageTable × FrameAllocator
  | [], pt, fa => (none, [], pt, fa)
  | a :: rest, pt, fa =>
    let ex := (MapArea.get_range a).exclude target
    if ex.2.2.is_empty then
      let r := munmapAreas target rest pt fa
      (r.1, a :: r.2.1, r.2.2.1, r.2.2.2)
    else
      let larea := (MapArea.split a ex.1.get_end).1
      let rarea0 := (MapArea.split a ex.1.get_end).2
      let marea := (MapArea.split rarea0 ex.2.2.get_end).1
      let rarea := (MapArea.split rarea0 ex.2.2.get_end).2
      let kept := (if (MapArea.get_range larea).is_empty then [] else [larea]) ++
        (if (MapArea.get_range rarea).is_empty then [] else [rarea])
      let u := MapArea.unmap marea pt fa
      match u.1 with
      | some e =>
        (some e, kept, u.2.2.1,
          rest.foldl (fun acc b => MapArea.dropFrames b acc) (MapArea.dropFrames u.2.1 u.2.2.2))
      | none =>
        let r := munmapAreas target rest u.2.2.1 u.2.2.2
        (r.1, kept ++ r.2.1, r.2.2.1, r.2.2.2)

/-- munmap of the source: reject a range touching a critical page, reject a
range with an uncovered sub-page, otherwise remove the range from every
tracked area through exclude and split. -/
def munmap (ms : MemorySet) (fa : FrameAllocator) (start_va end_va : Nat) :
    Option MMErr × MemorySet × FrameAllocator :=
  let target := VPNRange.new (vaFloor start_va) (vaCeil end_va)
  if target.pages.any (fun v => is_critical ms v) then
    (some MMErr.AreaCritical, ms, fa)
  else if has_unmapped ms target then
    (some MMErr.AreaHasUnmappedPortion, ms, fa)
  else
    let r := munmapAreas target ms.areas ms.page_table fa
    (r.1, ⟨r.2.2.1, r.2.1⟩, r.2.2.2)

end MemorySet

/-- The task control block of src/os/src/task/task.rs, restricted to the
fields change_program_brk touches: the address space, the heap bottom and the
program break (the other fields of the source struct are never read or written
by the operations verified here). -/
structure TaskControlBlock where
  memory_set : MemorySet
  heap_bottom : Nat
  program_brk : Nat
deriving DecidableEq, Repr

namespace TaskControlBlock

/-- change_program_brk of the source: refuse a new break below the heap
bottom; shrink on a negative delta, append on a nonnegative one; on success
return the old break and record the new one, on failure return None with the
break unchanged. -/
def change_program_brk (tcb : TaskControlBlock) (fa : FrameAllocator) (size : Int) :
    Option Nat × TaskControlBlock × FrameAllocator :=
  let old_break := tcb.program_brk
  let new_brk : Int := (tcb.program_brk : Int) + size
  if new_brk < (tcb.heap_bottom : Int) then
    (none, tcb, fa)
  else
    let d := if size < 0 then
        MemorySet.shrink_to tcb.memory_set fa tcb.heap_bottom new_brk.toNat
      else
        MemorySet.append_to tcb.memory_set fa tcb.heap_bottom new_brk.toNat
    match d.1 with
    | none =>
      (some old_break, { tcb with memory_set := d.2.1, program_brk := new_brk.toNat }, d.2.2)
    | some _ => (none, { tcb with memory_set := d.2.1 }, d.2.2)

end TaskControlBlock

/-- The delegated heap-resize call of change_program_brk, written out for the
statements below: exactly the shrink_to-or-append_to dispatch of the source. -/
def brkDelegate (tcb : TaskControlBlock) (fa : FrameAllocator) (size : Int) :
    Option MMErr × MemorySet × FrameAllocator :=
  if size < 0 then
    MemorySet.shrink_to tcb.memory_set fa tcb.heap_bottom
      ((tcb.program_brk : Int) + size).toNat
  else
    MemorySet.append_to tcb.memory_set fa tcb.heap_bottom
      ((tcb.program_brk : Int) + size).toNat

/-- sys_munmap of src/os/src/syscall/process.rs: reject misaligned arguments
with -1, otherwise run the underlying unmap over [start, start + len) and
return 0 whatever its outcome (the source discards the Result). -/
def sys_munmap (ms : MemorySet) (fa : FrameAllocator) (start len : Nat) :
    Int × MemorySet × FrameAllocator :=
  if start % PAGE_SIZE ≠ 0 ∨ len % PAGE_SIZE ≠ 0 then
    (-1, ms, fa)
  else
    let r := MemorySet.munmap ms fa start (start + len)
    (0, r.2.1, r.2.2)

/-- The first tracked area containing a page, in the search order of the
source's iter().find(). -/
def firstContaining : List MapArea → Nat → Option MapArea
  | [], _ => none
  | a :: rest, v =>
    if (MapArea.get_range a).contains v then some a else firstContaining rest v

/-- An area's bookkeeping is consistent with a page table: every page the area
claims to have installed (every page of an Identical area; every owned frame
of a Framed area lying in its range) has an entry. -/
def areaConsistent (pt : PageTable) (a : MapArea) : Prop :=
  (a.map_type = MapType.Identical →
    ∀ v ∈ a.range.pages, (PageTable.lookup pt v).isSome = true) ∧
  (a.map_type = MapType.Framed →
    ∀ p ∈ a.frames, a.range.contains p.1 = true →
      (PageTable.lookup pt p.1).isSome = true)

/-- The address-space invariant: every tracked area is consistent with the
page table and the tracked ranges are pairwise non-overlapping. -/
def MSInv (ms : MemorySet) : Prop :=
  (∀ a ∈ ms.areas, areaConsistent ms.page_table a) ∧
  ms.areas.Pairwise (fun a b => a.range.intersects b.range = false)

instance (pt : PageTable) (a : MapArea) : Decidable (areaConsistent pt a) := by
  unfold areaConsistent; infer_instance

instance (ms : MemorySet) : Decidable (MSInv ms) := by
  unfold MSInv; infer_instance

/-- The pages an area's bookkeeping promises to have installed. -/
def installedFor (ty : MapType) (fr : List (Nat × Nat)) (v : Nat) : Prop :=
  match ty with
  | MapType.Identical => True
  | MapType.Framed => (lookupFrames fr v).isSome = true

/-- The pages of the target range covered by one area, as a finite set. -/
def coveredSet (t : VPNRange) (a : MapArea) : Finset Nat :=
  Finset.Ico (max a.range.l t.l) (min a.range.r t.r)

/-! ## Concrete scenario states used by the claim theorems and witnesses -/

/-- A user read-write permission set. -/
def permRWU : MapPermission := ⟨true, true, false, true⟩

/-- A fresh allocator with eight free frames. -/
def faInit : FrameAllocator := ⟨0, 8, []⟩

/-- mmap of pages [10, 20) into an empty address space. -/
def c1Step0 : Option MMErr × MemorySet × FrameAllocator :=
  MemorySet.mmap MemorySet.new_bare faInit (10 * PAGE_SIZE) (20 * PAGE_SIZE) permRWU

/-- The address space with one never-touched Framed area over pages [10, 20). -/
def c1Ms : MemorySet := c1Step0.2.1

/-- Fault page 13 in. -/
def c1T13 : Except MMErr PageTableEntry × MemorySet × FrameAllocator :=
  MemorySet.translate c1Ms faInit 13

/-- Fault page 14 in. -/
def c1T14 : Except MMErr PageTableEntry × MemorySet × FrameAllocator :=
  MemorySet.translate c1T13.2.1 c1T13.2.2 14

/-- Fault page 15 in. -/
def c1T15 : Except MMErr PageTableEntry × MemorySet × FrameAllocator :=
  MemorySet.translate c1T14.2.1 c1T14.2.2 15

/-- The address space of c1Ms after pages 13, 14 and 15 have been touched. -/
def c1MsTouched : MemorySet := c1T15.2.1

/-- The allocator state after pages 13, 14 and 15 have been touched. -/
def c1FaTouched : FrameAllocator := c1T15.2.2

/-- munmap of pages [13, 16) from the never-touched area. -/
def c1Untouched : Option MMErr × MemorySet × FrameAllocator :=
  MemorySet.munmap c1Ms faInit (13 * PAGE_SIZE) (16 * PAGE_SIZE)

/-- munmap of pages [13, 16) after the three pages were touched. -/
def c1Touched : Option MMErr × MemorySet × FrameAllocator :=
  MemorySet.munmap c1MsTouched c1FaTouched (13 * PAGE_SIZE) (16 * PAGE_SIZE)

/-- An address space with one lazily mapped area over pages [10, 20) and an
empty page table. -/
def msOne : MemorySet := ⟨[], [⟨⟨10, 20⟩, MapType.Framed, permRWU, []⟩]⟩

/-- An empty address space whose trampoline entry has been installed. -/
def msTramp : MemorySet := (MemorySet.map_trampoline MemorySet.new_bare).2

/-- A task with an empty address space, heap bottom 4096 and break 8192. -/
def tcbW : TaskControlBlock := ⟨MemorySet.new_bare, 4096, 8192⟩

/-! ## Supporting lemmas -/

namespace VPNRange

theorem contains_iff {s : VPNRange} {v : Nat} :
    s.contains v = true ↔ (s.l ≤ v ∧ v < s.r) := by
  simp [contains]

theorem is_empty_iff {s : VPNRange} : s.is_empty = true ↔ s.r ≤ s.l := by
  simp [is_empty]

theorem intersects_iff {s t : VPNRange} :
    s.intersects t = true ↔ max s.l t.l < min s.r t.r := by
  simp [intersects]

theorem mem_pages {s : VPNRange} {v : Nat} :
    v ∈ s.pages ↔ (s.l ≤ v ∧ v < s.r) := by
  simp only [pages, List.mem_map, List.mem_range]
  constructor
  · rintro ⟨i, hi, rfl⟩
    omega
  · rintro ⟨h1, h2⟩
    exact ⟨v - s.l, by omega, by omega⟩

theorem pages_nodup (s : VPNRange) : s.pages.Nodup := by
  refine List.Nodup.map ?_ (List.nodup_range _)
  intro i j h
  dsimp at h
  omega

theorem count_eq_length_pages (s : VPNRange) : s.pages.length = s.count := by
  simp [pages, count]

end VPNRange

namespace PageTable

theorem lookup_remove (pt : PageTable) (v w : Nat) :
    lookup (remove pt v) w = if w = v then none else lookup pt w := by
  induction pt with
  | nil => simp [remove, lookup]
  | cons p rest ih =>
    obtain ⟨pk, pv⟩ := p
    by_cases h1 : pk = v
    · subst h1
      by_cases h2 : w = pk
      · subst h2
        simp [remove, lookup, ih]
      · have h3 : ¬ pk = w := fun he => h2 he.symm
        simp [remove, lookup, h2, h3, ih]
    · by_cases h3 : pk = w
      · subst h3
        simp [remove, lookup, h1]
      · simp [remove, lookup, h1, h3, ih]

theorem unmap_of_isSome {pt : PageTable} {v : Nat}
    (h : (lookup pt v).isSome = true) :
    unmap pt v = (none, remove pt v) := by
  unfold unmap
  cases hl : lookup pt v with
  | none => rw [hl] at h; simp at h
  | some e => simp

end PageTable

theorem lookupFrames_mem {fr : List (Nat × Nat)} {v f : Nat}
    (h : lookupFrames fr v = some f) : (v, f) ∈ fr := by
  induction fr with
  | nil => simp [lookupFrames] at h
  | cons p rest ih =>
    by_cases h1 : p.1 = v
    · simp only [lookupFrames, h1, if_pos] at h
      have hp : p = (v, f) := by
        cases p
        simp only [Option.some.injEq] at h
        simp_all
      rw [hp]
      exact List.mem_cons_self _ _
    · simp only [lookupFrames, h1, if_neg, not_false_iff] at h
      exact List.mem_cons_of_mem _ (ih h)

theorem lookupFrames_filter_isSome {fr : List (Nat × Nat)} {q : Nat × Nat → Bool} {v : Nat}
    (h : (lookupFrames (fr.filter q) v).isSome = true) :
    (lookupFrames fr v).isSome = true := by
  induction fr with
  | nil => simp [lookupFrames] at h
  | cons p rest ih =>
    by_cases h1 : p.1 = v
    · simp [lookupFrames, h1]
    · cases hq : q p with
      | true =>
        rw [List.filter_cons_of_pos hq] at h
        simp only [lookupFrames, h1, if_neg, not_false_iff] at h ⊢
        exact ih h
      | false =>
        rw [List.filter_cons_of_neg (by simp [hq])] at h
        simp only [lookupFrames, h1, if_neg, not_false_iff]
        exact ih h

theorem installedFor_filter {q : Nat × Nat → Bool} {ty : MapType}
    {fr : List (Nat × Nat)} {v : Nat}
    (h : installedFor ty (fr.filter q) v) : installedFor ty fr v := by
  cases ty with
  | Identical => trivial
  | Framed => exact lookupFrames_filter_isSome h

theorem releasePages_ok (ty : MapType) :
    ∀ (pages : List Nat) (fr : List (Nat × Nat)) (pt : PageTable) (fa : FrameAllocator),
    pages.Nodup →
    (∀ v ∈ pages, installedFor ty fr v → (PageTable.lookup pt v).isSome = true) →
    (MapArea.releasePages ty pages fr pt fa).1 = none ∧
    (∀ w, w ∉ pages →
      PageTable.lookup (MapArea.releasePages ty pages fr pt fa).2.2.1 w =
        PageTable.lookup pt w)
  | [], fr, pt, fa, _, _ => by
    constructor
    · rfl
    · intro w _; rfl
  | v :: vs, fr, pt, fa, hnd, h => by
    have hndtl : vs.Nodup := (List.nodup_cons.mp hnd).2
    have hvnotin : v ∉ vs := (List.nodup_cons.mp hnd).1
    cases ty with
    | Identical =>
      have hsome : (PageTable.lookup pt v).isSome = true :=
        h v (List.mem_cons_self v vs) trivial
      have hu : PageTable.unmap pt v = (none, PageTable.remove pt v) :=
        PageTable.unmap_of_isSome hsome
      have hrec := releasePages_ok MapType.Identical vs fr
        (PageTable.remove pt v) fa hndtl (by
          intro u hu' _
          rw [PageTable.lookup_remove]
          have : ¬ u = v := by
            intro he; exact hvnotin (he ▸ hu')
          rw [if_neg this]
          exact h u (List.mem_cons_of_mem _ hu') trivial)
      constructor
      · show (MapArea.releasePages MapType.Identical (v :: vs) fr pt fa).1 = none
        simp only [MapArea.releasePages, hu]
        exact hrec.1
      · intro w hw
        have hwv : ¬ w = v := by
          intro he; exact hw (he ▸ List.mem_cons_self v vs)
        have hwvs : w ∉ vs := fun hh => hw (List.mem_cons_of_mem _ hh)
        show PageTable.lookup (MapArea.releasePages MapType.Identical (v :: vs) fr pt fa).2.2.1 w = _
        simp only [MapArea.releasePages, hu]
        rw [hrec.2 w hwvs, PageTable.lookup_remove, if_neg hwv]
    | Framed =>
      cases hf : lookupFrames fr v with
      | none =>
        have hrec := releasePages_ok MapType.Framed vs fr pt fa hndtl (by
          intro u hu' hin
          exact h u (List.mem_cons_of_mem _ hu') hin)
        constructor
        · show (MapArea.releasePages MapType.Framed (v :: vs) fr pt fa).1 = none
          simp only [MapArea.releasePages, hf]
          exact hrec.1
        · intro w hw
          have hwvs : w ∉ vs := fun hh => hw (List.mem_cons_of_mem _ hh)
          show PageTable.lookup (MapArea.releasePages MapType.Framed (v :: vs) fr pt fa).2.2.1 w = _
          simp only [MapArea.releasePages, hf]
          exact hrec.2 w hwvs
      | some f =>
        have hsome : (PageTable.lookup pt v).isSome = true :=
          h v (List.mem_cons_self v vs) (by simp [installedFor, hf])
        have hu : PageTable.unmap pt v = (none, PageTable.remove pt v) :=
          PageTable.unmap_of_isSome hsome
        have hrec := releasePages_ok MapType.Framed vs
          (fr.filter (fun p => decide (p.1 ≠ v))) (PageTable.remove pt v)
          (FrameAllocator.dealloc fa f) hndtl (by
            intro u hu' hin
            rw [PageTable.lookup_remove]
            have : ¬ u = v := by
              intro he; exact hvnotin (he ▸ hu')
            rw [if_neg this]
            exact h u (List.mem_cons_of_mem _ hu') (installedFor_filter hin))
        constructor
        · show (MapArea.releasePages MapType.Framed (v :: vs) fr pt fa).1 = none
          simp only [MapArea.releasePages, hf, hu]
          exact hrec.1
        · intro w hw
          have hwv : ¬ w = v := by
            intro he; exact hw (he ▸ List.mem_cons_self v vs)
          have hwvs : w ∉ vs := fun hh => hw (List.mem_cons_of_mem _ hh)
          show PageTable.lookup (MapArea.releasePages MapType.Framed (v :: vs) fr pt fa).2.2.1 w = _
          simp only [MapArea.releasePages, hf, hu]
          rw [hrec.2 w hwvs, PageTable.lookup_remove, if_neg hwv]

namespace VPNRange

theorem is_empty_false_of_lt {a b : Nat} (h : a < b) :
    (VPNRange.mk a b).is_empty = false := by
  simp [VPNRange.is_empty]
  omega

theorem exclude_of_overlap {s t : VPNRange} (h : max s.l t.l < min s.r t.r) :
    s.exclude t =
      (⟨s.l, max s.l t.l⟩, ⟨min s.r t.r, s.r⟩, ⟨max s.l t.l, min s.r t.r⟩) := by
  simp [exclude, h]

theorem exclude_rem_empty_of_not_overlap {s t : VPNRange}
    (h : ¬ max s.l t.l < min s.r t.r) :
    ((s.exclude t).2.2).is_empty = true := by
  unfold exclude
  rw [if_neg h]
  by_cases h2 : s.r ≤ t.l
  · simp [h2, is_empty]
  · simp [h2, is_empty]

theorem exclude_rem_count (s t : VPNRange) :
    ((s.exclude t).2.2).count = min s.r t.r - max s.l t.l := by
  unfold exclude
  by_cases h : max s.l t.l < min s.r t.r
  · simp [h, count]
  · by_cases h2 : s.r ≤ t.l
    · simp [h, h2, count]
    · simp [h, h2, count]
      omega

end VPNRange

theorem areaConsistent_of_agree {pt pt' : PageTable} {b : MapArea}
    (hag : ∀ w, b.range.contains w = true →
      PageTable.lookup pt' w = PageTable.lookup pt w)
    (h : areaConsistent pt b) : areaConsistent pt' b := by
  constructor
  · intro hty v hv
    rw [hag v (VPNRange.contains_iff.mpr (VPNRange.mem_pages.mp hv))]
    exact h.1 hty v hv
  · intro hty p hp hc
    rw [hag p.1 hc]
    exact h.2 hty p hp hc

theorem munmapAreas_ok (target : VPNRange) :
    ∀ (areas : List MapArea) (pt : PageTable) (fa : FrameAllocator),
    (∀ a ∈ areas, areaConsistent pt a) →
    areas.Pairwise (fun a b => a.range.intersects b.range = false) →
    (MemorySet.munmapAreas target areas pt fa).1 = none
  | [], _, _, _, _ => rfl
  | a :: rest, pt, fa, hcon, hpw => by
    have hpw1 : ∀ b ∈ rest, a.range.intersects b.range = false :=
      (List.pairwise_cons.mp hpw).1
    have hpw2 := (List.pairwise_cons.mp hpw).2
    by_cases hov : max a.range.l target.l < min a.range.r target.r
    · have hexe := VPNRange.exclude_of_overlap (s := a.range) (t := target) hov
      have hml : a.range.l ≤ max a.range.l target.l := le_max_left _ _
      have hmr : min a.range.r target.r ≤ a.range.r := min_le_left _ _
      have hpages : ∀ v ∈ (VPNRange.mk (max a.range.l target.l) (min a.range.r target.r)).pages,
          a.range.l ≤ v ∧ v < a.range.r := by
        intro v hv
        have h2 := VPNRange.mem_pages.mp hv
        simp only at h2
        omega
      have hcons := hcon a (List.mem_cons_self a rest)
      have hrel := releasePages_ok a.map_type
        (VPNRange.mk (max a.range.l target.l) (min a.range.r target.r)).pages
        ((a.frames.filter (fun p => decide (max a.range.l target.l ≤ p.1))).filter
          (fun p => decide (p.1 < min a.range.r target.r)))
        pt fa (VPNRange.pages_nodup _) (by
          intro v hv hin
          obtain ⟨hv1, hv2⟩ := hpages v hv
          cases hty : a.map_type with
          | Identical =>
            exact hcons.1 hty v (VPNRange.mem_pages.mpr ⟨hv1, hv2⟩)
          | Framed =>
            rw [hty] at hin
            simp only [installedFor] at hin
            have hin2 : (lookupFrames a.frames v).isSome = true :=
              lookupFrames_filter_isSome (lookupFrames_filter_isSome hin)
            obtain ⟨f, hf⟩ := Option.isSome_iff_exists.mp hin2
            exact hcons.2 hty (v, f) (lookupFrames_mem hf)
              (VPNRange.contains_iff.mpr ⟨hv1, hv2⟩))
      have hcon' : ∀ b ∈ rest,
          areaConsistent (MapArea.releasePages a.map_type
            (VPNRange.mk (max a.range.l target.l) (min a.range.r target.r)).pages
            ((a.frames.filter (fun p => decide (max a.range.l target.l ≤ p.1))).filter
              (fun p => decide (p.1 < min a.range.r target.r)))
            pt fa).2.2.1 b := by
        intro b hb
        refine areaConsistent_of_agree ?_ (hcon b (List.mem_cons_of_mem _ hb))
        intro w hw
        apply hrel.2
        intro hwin
        obtain ⟨hw1, hw2⟩ := hpages w hwin
        have hint := hpw1 b hb
        have hwb := VPNRange.contains_iff.mp hw
        simp only [VPNRange.intersects, decide_eq_false_iff_not, not_lt] at hint
        omega
      have hrec := munmapAreas_ok target rest
        (MapArea.releasePages a.map_type
          (VPNRange.mk (max a.range.l target.l) (min a.range.r target.r)).pages
          ((a.frames.filter (fun p => decide (max a.range.l target.l ≤ p.1))).filter
            (fun p => decide (p.1 < min a.range.r target.r)))
          pt fa).2.2.1
        (MapArea.releasePages a.map_type
          (VPNRange.mk (max a.range.l target.l) (min a.range.r target.r)).pages
          ((a.frames.filter (fun p => decide (max a.range.l target.l ≤ p.1))).filter
            (fun p => decide (p.1 < min a.range.r target.r)))
          pt fa).2.2.2 hcon' hpw2
      show (MemorySet.munmapAreas target (a :: rest) pt fa).1 = none
      simp only [MemorySet.munmapAreas, MapArea.get_range, hexe, VPNRange.get_end,
        MapArea.split, MapArea.unmap, VPNRange.is_empty_false_of_lt hov,
        Bool.false_eq_true, if_false, hrel.1]
      exact hrec
    · -- the excluded middle is empty: the area is kept and the rest recurse on the same table
      have hemp := VPNRange.exclude_rem_empty_of_not_overlap (s := a.range) (t := target) hov
      have hrec := munmapAreas_ok target rest pt fa
        (fun b hb => hcon b (List.mem_cons_of_mem _ hb)) hpw2
      show (MemorySet.munmapAreas target (a :: rest) pt fa).1 = none
      simp only [MemorySet.munmapAreas, MapArea.get_range, hemp, if_true]
      exact hrec

theorem exclude_rem_count_eq_card (t : VPNRange) (a : MapArea) :
    ((a.range.exclude t).2.2).count = (coveredSet t a).card := by
  rw [VPNRange.exclude_rem_count, coveredSet, Nat.card_Ico]

theorem sum_covered_le {t : VPNRange} :
    ∀ (areas : List MapArea) (T : Finset Nat),
    (∀ a ∈ areas, coveredSet t a ⊆ T) →
    areas.Pairwise (fun a b => a.range.intersects b.range = false) →
    (areas.map (fun a => (((MapArea.get_range a).exclude t).2.2).count)).sum ≤ T.card
  | [], T, _, _ => by simp
  | a :: rest, T, hsub, hpw => by
    have hpw1 : ∀ b ∈ rest, a.range.intersects b.range = false :=
      (List.pairwise_cons.mp hpw).1
    have hpw2 := (List.pairwise_cons.mp hpw).2
    have hsubA : coveredSet t a ⊆ T := hsub a (List.mem_cons_self a rest)
    have hsub' : ∀ b ∈ rest, coveredSet t b ⊆ T \ coveredSet t a := by
      intro b hb x hx
      rw [Finset.mem_sdiff]
      refine ⟨hsub b (List.mem_cons_of_mem _ hb) hx, ?_⟩
      intro hxa
      have h1 := Finset.mem_Ico.mp hx
      have h2 := Finset.mem_Ico.mp hxa
      have hint := hpw1 b hb
      simp only [VPNRange.intersects, decide_eq_false_iff_not, not_lt] at hint
      omega
    have hrec := sum_covered_le rest (T \ coveredSet t a) hsub' hpw2
    have hcard : (T \ coveredSet t a).card = T.card - (coveredSet t a).card :=
      Finset.card_sdiff hsubA
    have hle : (coveredSet t a).card ≤ T.card := Finset.card_le_card hsubA
    simp only [List.map_cons, List.sum_cons, MapArea.get_range] at hrec ⊢
    rw [exclude_rem_count_eq_card]
    omega

theorem has_unmapped_of_uncovered {ms : MemorySet} {t : VPNRange}
    (hpw : ms.areas.Pairwise (fun a b => a.range.intersects b.range = false))
    (v : Nat) (hv : t.contains v = true)
    (huncov : ∀ a ∈ ms.areas, a.range.contains v = false) :
    ms.has_unmapped t = true := by
  obtain ⟨hv1, hv2⟩ := VPNRange.contains_iff.mp hv
  have hsub : ∀ a ∈ ms.areas, coveredSet t a ⊆ Finset.Ico t.l t.r \ {v} := by
    intro a ha x hx
    have h1 := Finset.mem_Ico.mp hx
    rw [Finset.mem_sdiff, Finset.mem_Ico, Finset.mem_singleton]
    refine ⟨⟨by omega, by omega⟩, ?_⟩
    intro hxv
    subst hxv
    have hc := huncov a ha
    simp only [VPNRange.contains, decide_eq_false_iff_not] at hc
    exact hc ⟨by omega, by omega⟩
  have hsum := sum_covered_le ms.areas (Finset.Ico t.l t.r \ {v}) hsub hpw
  have hvmem : v ∈ Finset.Ico t.l t.r := Finset.mem_Ico.mpr ⟨hv1, hv2⟩
  have hcard : (Finset.Ico t.l t.r \ {v}).card = (t.r - t.l) - 1 := by
    rw [Finset.card_sdiff (by simpa using hvmem), Nat.card_Ico, Finset.card_singleton]
  rw [hcard] at hsum
  simp only [MemorySet.has_unmapped, decide_eq_true_eq]
  have hc : t.count = t.r - t.l := rfl
  omega

/-! ## Claim theorems -/

/-- C1: for an address space containing one Framed area covering pages
[10, 20), munmap over pages [13, 16) succeeds and yields exactly two surviving
areas with ranges [10, 13) and [16, 20); the middle piece's installed entries
are cleared and every frame previously backing pages 13-15 goes back to the
allocator: the free count rises by exactly 3 when those pages had been touched
(the three frames 0, 1, 2 backing pages 13, 14, 15 all reappear in the
allocator) and by 0 when they had never been faulted in. -/
theorem c1_munmap_interior_split :
    (c1Untouched.1 = none ∧
      c1Untouched.2.1.areas.map MapArea.get_range = [⟨10, 13⟩, ⟨16, 20⟩] ∧
      c1Untouched.2.2.free_count = faInit.free_count) ∧
    (c1Touched.1 = none ∧
      c1Touched.2.1.areas.map MapArea.get_range = [⟨10, 13⟩, ⟨16, 20⟩] ∧
      c1Touched.2.2.free_count = c1FaTouched.free_count + 3 ∧
      PageTable.lookup c1Touched.2.1.page_table 13 = none ∧
      PageTable.lookup c1Touched.2.1.page_table 14 = none ∧
      PageTable.lookup c1Touched.2.1.page_table 15 = none ∧
      c1MsTouched.areas.map (fun a => lookupFrames a.frames 13) = [some 0] ∧
      c1MsTouched.areas.map (fun a => lookupFrames a.frames 14) = [some 1] ∧
      c1MsTouched.areas.map (fun a => lookupFrames a.frames 15) = [some 2] ∧
      c1Touched.2.2.recycled = [2, 1, 0]) := by decide

/-- C8: the claim that every failing mmap or munmap is reported to user code
as a negative status is contradicted by sys_munmap: over an empty address
space the underlying munmap of [4096, 8192) fails with
AreaHasUnmappedPortion, yet sys_munmap(4096, 4096) returns 0. -/
theorem c8_sys_munmap_returns_zero_on_failure :
    (MemorySet.munmap MemorySet.new_bare faInit 4096 (4096 + 4096)).1
      = some MMErr.AreaHasUnmappedPortion ∧
    sys_munmap MemorySet.new_bare faInit 4096 4096 = (0, MemorySet.new_bare, faInit) := by
  decide

/-- C2: munmap rejects with AreaCritical when the requested range touches a
critical page; rejects with AreaHasUnmappedPortion when some sub-page of the
range is covered by no area; and the call is atomic: under the address-space
invariant, every call that returns an error leaves the areas and the page
table exactly as before. -/
theorem c2_munmap_rejects_and_is_atomic (ms : MemorySet) (fa : FrameAllocator)
    (s e : Nat) (hinv : MSInv ms) :
    ((VPNRange.new (vaFloor s) (vaCeil e)).pages.any (fun v => ms.is_critical v) = true →
      MemorySet.munmap ms fa s e = (some MMErr.AreaCritical, ms, fa)) ∧
    ((VPNRange.new (vaFloor s) (vaCeil e)).pages.any (fun v => ms.is_critical v) = false →
      (∃ v, (VPNRange.new (vaFloor s) (vaCeil e)).contains v = true ∧
        ∀ a ∈ ms.areas, a.range.contains v = false) →
      MemorySet.munmap ms fa s e = (some MMErr.AreaHasUnmappedPortion, ms, fa)) ∧
    (∀ err, (MemorySet.munmap ms fa s e).1 = some err →
      (MemorySet.munmap ms fa s e).2 = (ms, fa)) := by
  refine ⟨?_, ?_, ?_⟩
  · intro hc
    simp only [MemorySet.munmap, hc, if_true]
  · rintro hc ⟨v, hv, huncov⟩
    have hum := has_unmapped_of_uncovered hinv.2 v hv huncov
    simp only [MemorySet.munmap, hc, Bool.false_eq_true, if_false, hum, if_true]
  · intro err herr
    by_cases hc : (VPNRange.new (vaFloor s) (vaCeil e)).pages.any
        (fun v => ms.is_critical v) = true
    · simp only [MemorySet.munmap, hc, if_true]
    · rw [Bool.not_eq_true] at hc
      by_cases hum : ms.has_unmapped (VPNRange.new (vaFloor s) (vaCeil e)) = true
      · simp only [MemorySet.munmap, hc, Bool.false_eq_true, if_false, hum, if_true]
      · exfalso
        rw [Bool.not_eq_true] at hum
        have hok := munmapAreas_ok (VPNRange.new (vaFloor s) (vaCeil e))
          ms.areas ms.page_table fa hinv.1 hinv.2
        simp only [MemorySet.munmap, hc, Bool.false_eq_true, if_false, hum, hok] at herr
        cases herr

/-- Witness for C2: the area invariant holds of the one-area space msOne, and
a munmap over the trampoline page is rejected with AreaCritical, the state
untouched. -/
theorem c2_witness :
    MSInv msOne ∧
    MemorySet.munmap msOne faInit TRAMPOLINE (TRAMPOLINE + PAGE_SIZE)
      = (some MMErr.AreaCritical, msOne, faInit) := by
  refine ⟨by decide, ?_⟩
  exact (c2_munmap_rejects_and_is_atomic msOne faInit TRAMPOLINE (TRAMPOLINE + PAGE_SIZE)
    (by decide)).1 (by decide)

/-- C3: mmap rejects with AreaCritical when the requested range touches a
critical page and with AreaHasMappedPortion when it intersects an existing
area, leaving the state untouched in both failure cases; otherwise it appends
one lazily backed Framed area with no initial data and no frames, touching
neither the page table nor the allocator. -/
theorem c3_mmap_rejects_or_pushes_lazily (ms : MemorySet) (fa : FrameAllocator)
    (s e : Nat) (p : MapPermission) :
    ((VPNRange.new (vaFloor s) (vaCeil e)).pages.any (fun v => ms.is_critical v) = true →
      MemorySet.mmap ms fa s e p = (some MMErr.AreaCritical, ms, fa)) ∧
    ((VPNRange.new (vaFloor s) (vaCeil e)).pages.any (fun v => ms.is_critical v) = false →
      (∃ a ∈ ms.areas, a.range.intersects (VPNRange.new (vaFloor s) (vaCeil e)) = true) →
      MemorySet.mmap ms fa s e p = (some MMErr.AreaHasMappedPortion, ms, fa)) ∧
    ((VPNRange.new (vaFloor s) (vaCeil e)).pages.any (fun v => ms.is_critical v) = false →
      (∀ a ∈ ms.areas, a.range.intersects (VPNRange.new (vaFloor s) (vaCeil e)) = false) →
      MemorySet.mmap ms fa s e p =
        (none, ⟨ms.page_table, ms.areas ++ [MapArea.new s e MapType.Framed p]⟩, fa)) := by
  refine ⟨?_, ?_, ?_⟩
  · intro hc
    simp only [VPNRange.new] at hc
    simp only [MemorySet.mmap, MapArea.get_range, MapArea.new]
    simp only [hc, if_true]
  · rintro hc ⟨a, ha, hint⟩
    have hm : ms.has_mapped (VPNRange.new (vaFloor s) (vaCeil e)) = true := by
      simp only [MemorySet.has_mapped, List.any_eq_true, MapArea.get_range]
      exact ⟨a, ha, hint⟩
    simp only [VPNRange.new] at hc hm
    simp only [MemorySet.mmap, MapArea.get_range, MapArea.new]
    simp only [hc, Bool.false_eq_true, if_false, hm, if_true]
  · intro hc hdis
    have hm : ms.has_mapped (VPNRange.new (vaFloor s) (vaCeil e)) = false := by
      simp only [MemorySet.has_mapped, List.any_eq_false, MapArea.get_range]
      intro a ha
      simp [hdis a ha]
    simp only [VPNRange.new] at hc hm
    simp only [MemorySet.mmap, MapArea.get_range, MapArea.new]
    simp only [hc, Bool.false_eq_true, if_false, hm,
      MemorySet.push_lazy, MapArea.map]

/-- Witness for C3: on the one-area space msOne a second mmap over pages
[15, 25) overlaps and is rejected with the state untouched, while an mmap
over pages [30, 40) succeeds and appends exactly one fresh lazy area. -/
theorem c3_witness :
    MemorySet.mmap msOne faInit (15 * PAGE_SIZE) (25 * PAGE_SIZE) permRWU
      = (some MMErr.AreaHasMappedPortion, msOne, faInit) ∧
    MemorySet.mmap msOne faInit (30 * PAGE_SIZE) (40 * PAGE_SIZE) permRWU
      = (none, ⟨msOne.page_table,
          msOne.areas ++ [MapArea.new (30 * PAGE_SIZE) (40 * PAGE_SIZE)
            MapType.Framed permRWU]⟩, faInit) := by
  constructor
  · exact (c3_mmap_rejects_or_pushes_lazily msOne faInit (15 * PAGE_SIZE) (25 * PAGE_SIZE)
      permRWU).2.1 (by decide) ⟨⟨⟨10, 20⟩, MapType.Framed, permRWU, []⟩, by decide, by decide⟩
  · exact (c3_mmap_rejects_or_pushes_lazily msOne faInit (30 * PAGE_SIZE) (40 * PAGE_SIZE)
      permRWU).2.2 (by decide) (by decide)

/-- C5: for a wholly contained sub-interval B of A, exclude(B) returns a left
remainder, a right remainder and the intersection (holding exactly the pages
of B) whose three parts partition A with no page counted twice; for two
disjoint intervals, exclude returns A unchanged as one remainder, the other
remainder empty, together with an empty intersection. -/
theorem c5_exclude_partition (A B : VPNRange) :
    (A.l ≤ B.l ∧ B.r ≤ A.r →
      (∀ q : Nat, (A.exclude B).2.2.contains q = B.contains q) ∧
      (∀ q : Nat, A.contains q = true ↔
        ((A.exclude B).1.contains q = true ∨ (A.exclude B).2.2.contains q = true ∨
          (A.exclude B).2.1.contains q = true)) ∧
      (∀ q : Nat, ¬((A.exclude B).1.contains q = true ∧ (A.exclude B).2.2.contains q = true)) ∧
      (∀ q : Nat, ¬((A.exclude B).1.contains q = true ∧ (A.exclude B).2.1.contains q = true)) ∧
      (∀ q : Nat, ¬((A.exclude B).2.2.contains q = true ∧ (A.exclude B).2.1.contains q = true)) ∧
      (A.exclude B).1.count + (A.exclude B).2.2.count + (A.exclude B).2.1.count = A.count) ∧
    (A.intersects B = false →
      (((A.exclude B).1 = A ∧ (A.exclude B).2.1.is_empty = true) ∨
        ((A.exclude B).2.1 = A ∧ (A.exclude B).1.is_empty = true)) ∧
      (A.exclude B).2.2.is_empty = true) := by
  constructor
  · rintro ⟨hbl, hbr⟩
    unfold VPNRange.exclude
    by_cases hov : max A.l B.l < min A.r B.r
    · simp only [hov, if_true]
      refine ⟨?_, ?_, ?_, ?_, ?_, ?_⟩
      · intro q
        simp only [VPNRange.contains]
        exact decide_eq_decide.mpr (by omega)
      · intro q
        simp only [VPNRange.contains, decide_eq_true_eq]
        omega
      · intro q
        simp only [VPNRange.contains, decide_eq_true_eq]
        omega
      · intro q
        simp only [VPNRange.contains, decide_eq_true_eq]
        omega
      · intro q
        simp only [VPNRange.contains, decide_eq_true_eq]
        omega
      · simp only [VPNRange.count]
        omega
    · simp only [hov, if_false]
      by_cases h2 : A.r ≤ B.l
      · simp only [h2, if_true]
        refine ⟨?_, ?_, ?_, ?_, ?_, ?_⟩
        · intro q
          simp only [VPNRange.contains]
          exact decide_eq_decide.mpr (by omega)
        · intro q
          simp only [VPNRange.contains, decide_eq_true_eq]
          omega
        · intro q
          simp only [VPNRange.contains, decide_eq_true_eq]
          omega
        · intro q
          simp only [VPNRange.contains, decide_eq_true_eq]
          omega
        · intro q
          simp only [VPNRange.contains, decide_eq_true_eq]
          omega
        · simp only [VPNRange.count]
          omega
      · simp only [h2, if_false]
        refine ⟨?_, ?_, ?_, ?_, ?_, ?_⟩
        · intro q
          simp only [VPNRange.contains]
          exact decide_eq_decide.mpr (by omega)
        · intro q
          simp only [VPNRange.contains, decide_eq_true_eq]
          omega
        · intro q
          simp only [VPNRange.contains, decide_eq_true_eq]
          omega
        · intro q
          simp only [VPNRange.contains, decide_eq_true_eq]
          omega
        · intro q
          simp only [VPNRange.contains, decide_eq_true_eq]
          omega
        · simp only [VPNRange.count]
          omega
  · intro hdis
    simp only [VPNRange.intersects, decide_eq_false_iff_not, not_lt] at hdis
    have hov : ¬ max A.l B.l < min A.r B.r := by omega
    unfold VPNRange.exclude
    simp only [hov, if_false]
    by_cases h2 : A.r ≤ B.l
    · simp only [h2, if_true]
      exact ⟨Or.inl ⟨trivial, by simp [VPNRange.is_empty]⟩, by simp [VPNRange.is_empty]⟩
    · simp only [h2, if_false]
      exact ⟨Or.inr ⟨trivial, by simp [VPNRange.is_empty]⟩, by simp [VPNRange.is_empty]⟩

/-- Witness for C5: the contained case at A = [10, 20), B = [13, 16) and the
disjoint case at A = [0, 5), B = [7, 9). -/
theorem c5_witness :
    ((VPNRange.mk 10 20).exclude ⟨13, 16⟩).1.count +
      ((VPNRange.mk 10 20).exclude ⟨13, 16⟩).2.2.count +
      ((VPNRange.mk 10 20).exclude ⟨13, 16⟩).2.1.count = (VPNRange.mk 10 20).count ∧
    ((VPNRange.mk 0 5).exclude ⟨7, 9⟩).1 = ⟨0, 5⟩ ∧
    ((VPNRange.mk 0 5).exclude ⟨7, 9⟩).2.2.is_empty = true := by
  refine ⟨(c5_exclude_partition ⟨10, 20⟩ ⟨13, 16⟩).1 (by decide) |>.2.2.2.2.2, ?_, ?_⟩
  · rcases (c5_exclude_partition ⟨0, 5⟩ ⟨7, 9⟩).2 (by decide) with ⟨h1 | h1, _⟩
    · exact h1.1
    · cases h1.2.symm.trans (by decide : ((VPNRange.mk 0 5).exclude ⟨7, 9⟩).1.is_empty = false)
  · exact ((c5_exclude_partition ⟨0, 5⟩ ⟨7, 9⟩).2 (by decide)).2

theorem findEnsure_none (vpn : Nat) :
    ∀ (areas : List MapArea) (pt : PageTable) (fa : FrameAllocator),
    (∀ a ∈ areas, a.range.contains vpn = false) →
    MemorySet.findEnsure vpn areas pt fa = (some MMErr.AreaRangeNotInclude, areas, pt, fa)
  | [], _, _, _ => rfl
  | a :: rest, pt, fa, hout => by
    have ha := hout a (List.mem_cons_self a rest)
    have hrec := findEnsure_none vpn rest pt fa
      (fun b hb => hout b (List.mem_cons_of_mem _ hb))
    simp only [MemorySet.findEnsure, MapArea.get_range, ha, Bool.false_eq_true, if_false, hrec]

/-- C7: translate on a page outside every tracked area (in particular outside
the critical set) fails with AreaRangeNotInclude, installs no page-table entry
and allocates no frame: the whole state is returned unchanged. -/
theorem c7_translate_outside_fails (ms : MemorySet) (fa : FrameAllocator) (vpn : Nat)
    (hout : ∀ a ∈ ms.areas, a.range.contains vpn = false)
    (_hcrit : MemorySet.is_critical ms vpn = false) :
    MemorySet.translate ms fa vpn = (Except.error MMErr.AreaRangeNotInclude, ms, fa) := by
  have h := findEnsure_none vpn ms.areas ms.page_table fa hout
  simp only [MemorySet.translate, h]

/-- Witness for C7: page 30 lies outside the single area of msOne and outside
the critical set, and translate rejects it leaving the state unchanged. -/
theorem c7_witness :
    MemorySet.translate msOne faInit 30
      = (Except.error MMErr.AreaRangeNotInclude, msOne, faInit) :=
  c7_translate_outside_fails msOne faInit 30 (by decide) (by decide)

/-- C10: translate on the trampoline page fails with AreaRangeNotInclude for
any state in which no tracked area contains that page, even when the page
table itself holds a valid entry for it (as map_trampoline installs one
outside the area collection): the area search alone decides translate. -/
theorem c10_trampoline_translate_fails (ms : MemorySet) (fa : FrameAllocator)
    (hpt : (PageTable.lookup ms.page_table (vaFloor TRAMPOLINE)).isSome = true)
    (hout : ∀ a ∈ ms.areas, a.range.contains (vaFloor TRAMPOLINE) = false) :
    MemorySet.translate ms fa (vaFloor TRAMPOLINE)
      = (Except.error MMErr.AreaRangeNotInclude, ms, fa) ∧
    (∃ pe, PageTable.translate ms.page_table (vaFloor TRAMPOLINE) = Except.ok pe) := by
  constructor
  · have h := findEnsure_none (vaFloor TRAMPOLINE) ms.areas ms.page_table fa hout
    simp only [MemorySet.translate, h]
  · obtain ⟨pe, hpe⟩ := Option.isSome_iff_exists.mp hpt
    exact ⟨pe, by simp only [PageTable.translate, hpe]⟩

/-- Witness for C10: in the state built by map_trampoline on a bare address
space the page table holds the trampoline entry, no area tracks the page, and
translate fails while the raw page-table translate succeeds. -/
theorem c10_witness :
    MemorySet.translate msTramp faInit (vaFloor TRAMPOLINE)
      = (Except.error MMErr.AreaRangeNotInclude, msTramp, faInit) ∧
    (∃ pe, PageTable.translate msTramp.page_table (vaFloor TRAMPOLINE) = Except.ok pe) :=
  c10_trampoline_translate_fails msTramp faInit (by decide) (by decide)

/-- C9: change_program_brk returns None and leaves the task untouched when the
requested break would fall below the heap bottom; returns None with the break
unchanged when the delegated shrink_to or append_to fails (for instance with
NoMatchingArea); and on success returns the old break and records the new one. -/
theorem c9_change_program_brk (tcb : TaskControlBlock) (fa : FrameAllocator) (size : Int) :
    (((tcb.program_brk : Int) + size < (tcb.heap_bottom : Int)) →
      TaskControlBlock.change_program_brk tcb fa size = (none, tcb, fa)) ∧
    (¬((tcb.program_brk : Int) + size < (tcb.heap_bottom : Int)) →
      ∀ err, (brkDelegate tcb fa size).1 = some err →
      (TaskControlBlock.change_program_brk tcb fa size).1 = none ∧
      (TaskControlBlock.change_program_brk tcb fa size).2.1.program_brk = tcb.program_brk) ∧
    (¬((tcb.program_brk : Int) + size < (tcb.heap_bottom : Int)) →
      (brkDelegate tcb fa size).1 = none →
      TaskControlBlock.change_program_brk tcb fa size =
        (some tcb.program_brk,
          { tcb with
            memory_set := (brkDelegate tcb fa size).2.1
            program_brk := ((tcb.program_brk : Int) + size).toNat },
          (brkDelegate tcb fa size).2.2)) := by
  refine ⟨?_, ?_, ?_⟩
  · intro hlow
    simp only [TaskControlBlock.change_program_brk, hlow, if_true]
  · intro hlow err herr
    simp only [brkDelegate] at herr
    simp only [TaskControlBlock.change_program_brk, hlow, if_false, herr]
    exact ⟨trivial, trivial⟩
  · intro hlow hok
    simp only [brkDelegate] at hok
    simp only [TaskControlBlock.change_program_brk, hlow, if_false, hok, brkDelegate]

/-- Witness for C9: on the empty-address-space task tcbW a shrink below the
heap bottom is refused outright, and a legal shrink fails with NoMatchingArea
(no area starts at the heap bottom) leaving the break unchanged. -/
theorem c9_witness :
    TaskControlBlock.change_program_brk tcbW faInit (-8192) = (none, tcbW, faInit) ∧
    (TaskControlBlock.change_program_brk tcbW faInit (-4096)).1 = none ∧
    (TaskControlBlock.change_program_brk tcbW faInit (-4096)).2.1.program_brk
      = tcbW.program_brk := by
  refine ⟨?_, ?_⟩
  · exact (c9_change_program_brk tcbW faInit (-8192)).1 (by decide)
  · exact (c9_change_program_brk tcbW faInit (-4096)).2.1 (by decide)
      MMErr.NoMatchingArea (by decide)

theorem releasePages_framed_no_frames :
    ∀ (pages : List Nat) (pt : PageTable) (fa : FrameAllocator),
    MapArea.releasePages MapType.Framed pages [] pt fa = (none, [], pt, fa)
  | [], _, _ => rfl
  | v :: vs, pt, fa => by
    simp only [MapArea.releasePages, lookupFrames]
    exact releasePages_framed_no_frames vs pt fa

theorem is_empty_refl (a : Nat) : (VPNRange.mk a a).is_empty = true := by
  simp [VPNRange.is_empty]

theorem munmapAreas_append_new (target : VPNRange) (Ap : MapPermission)
    (hne : target.l < target.r) :
    ∀ (areas : List MapArea) (pt : PageTable) (fa : FrameAllocator),
    (∀ a ∈ areas, a.range.intersects target = false) →
    MemorySet.munmapAreas target
      (areas ++ [⟨target, MapType.Framed, Ap, []⟩]) pt fa = (none, areas, pt, fa)
  | [], pt, fa, _ => by
    have hov : max target.l target.l < min target.r target.r := by
      simp only [max_self, min_self]
      exact hne
    have hex := VPNRange.exclude_of_overlap (s := target) (t := target) hov
    have hef : (VPNRange.mk target.l target.r).is_empty = false :=
      VPNRange.is_empty_false_of_lt hne
    simp only [List.nil_append, MemorySet.munmapAreas, MapArea.get_range, hex,
      max_self, min_self, hef, Bool.false_eq_true, if_false, VPNRange.get_end,
      MapArea.split, List.filter_nil, MapArea.unmap, releasePages_framed_no_frames,
      is_empty_refl, if_true, List.append_nil]
  | a :: rest, pt, fa, hdis => by
    have ha := hdis a (List.mem_cons_self a rest)
    have hrem : ((a.range.exclude target).2.2).is_empty = true := by
      apply VPNRange.exclude_rem_empty_of_not_overlap
      simp only [VPNRange.intersects, decide_eq_false_iff_not] at ha
      exact ha
    have hrec := munmapAreas_append_new target Ap hne rest pt fa
      (fun b hb => hdis b (List.mem_cons_of_mem _ hb))
    simp only [List.cons_append, MemorySet.munmapAreas, MapArea.get_range, hrem,
      if_true, List.append_eq, hrec]

/-- C4 (amended): whenever mmap(start, end, perm) succeeds on a range holding
at least one page, an immediate munmap(start, end) succeeds and returns the
address space and the allocator exactly to their states before the mmap. -/
theorem c4_mmap_then_munmap_roundtrip (ms : MemorySet) (fa : FrameAllocator)
    (s e : Nat) (p : MapPermission)
    (hok : (MemorySet.mmap ms fa s e p).1 = none)
    (hne : vaFloor s < vaCeil e) :
    MemorySet.munmap (MemorySet.mmap ms fa s e p).2.1 (MemorySet.mmap ms fa s e p).2.2 s e
      = (none, ms, fa) := by
  by_cases hc : ((VPNRange.mk (vaFloor s) (vaCeil e)).pages.any
      (fun v => ms.is_critical v)) = true
  · exfalso
    simp only [MemorySet.mmap, MapArea.get_range, MapArea.new, hc, if_true] at hok
    cases hok
  · rw [Bool.not_eq_true] at hc
    by_cases hm : ms.has_mapped ⟨vaFloor s, vaCeil e⟩ = true
    · exfalso
      simp only [MemorySet.mmap, MapArea.get_range, MapArea.new, hc,
        Bool.false_eq_true, if_false, hm, if_true] at hok
      cases hok
    · rw [Bool.not_eq_true] at hm
      have hmm : MemorySet.mmap ms fa s e p =
          (none, ⟨ms.page_table,
            ms.areas ++ [⟨⟨vaFloor s, vaCeil e⟩, MapType.Framed, p, []⟩]⟩, fa) := by
        simp only [MemorySet.mmap, MapArea.get_range, MapArea.new, hc,
          Bool.false_eq_true, if_false, hm, MemorySet.push_lazy, MapArea.map]
      rw [hmm]
      have hdis : ∀ a ∈ ms.areas,
          a.range.intersects ⟨vaFloor s, vaCeil e⟩ = false := by
        intro a ha
        have := (List.any_eq_false.mp (by
          simpa only [MemorySet.has_mapped, MapArea.get_range] using hm)) a ha
        simpa using this
      have hloop := munmapAreas_append_new ⟨vaFloor s, vaCeil e⟩ p hne
        ms.areas ms.page_table fa hdis
      have hzero : ∀ a ∈ ms.areas,
          ((a.range.exclude ⟨vaFloor s, vaCeil e⟩).2.2).count = 0 := by
        intro a ha
        rw [VPNRange.exclude_rem_count]
        have h2 := hdis a ha
        simp only [VPNRange.intersects, decide_eq_false_iff_not, not_lt] at h2
        dsimp only at h2 ⊢
        omega
      have hc' : ((VPNRange.mk (vaFloor s) (vaCeil e)).pages.any
          (fun v => MemorySet.is_critical
            ⟨ms.page_table, ms.areas ++ [⟨⟨vaFloor s, vaCeil e⟩, MapType.Framed, p, []⟩]⟩ v))
            = false := hc
      have hu : MemorySet.has_unmapped
          ⟨ms.page_table, ms.areas ++ [⟨⟨vaFloor s, vaCeil e⟩, MapType.Framed, p, []⟩]⟩
          ⟨vaFloor s, vaCeil e⟩ = false := by
        simp only [MemorySet.has_unmapped, decide_eq_false_iff_not, Decidable.not_not]
        simp only [List.map_append, List.sum_append, MapArea.get_range]
        have hsum0 : (ms.areas.map
            (fun a => ((a.range.exclude ⟨vaFloor s, vaCeil e⟩).2.2).count)).sum = 0 := by
          apply List.sum_eq_zero
          intro x hx
          obtain ⟨a, ha, rfl⟩ := List.mem_map.mp hx
          exact hzero a ha
        rw [hsum0]
        have hself : (((VPNRange.mk (vaFloor s) (vaCeil e)).exclude
            ⟨vaFloor s, vaCeil e⟩).2.2).count = (VPNRange.mk (vaFloor s) (vaCeil e)).count := by
          rw [VPNRange.exclude_rem_count]
          simp only [max_self, min_self, VPNRange.count]
        simp only [List.map_cons, List.map_nil, List.sum_cons, List.sum_nil, hself]
        simp [VPNRange.count]
      show MemorySet.munmap _ fa s e = (none, ms, fa)
      simp only [MemorySet.munmap, VPNRange.new, hc', Bool.false_eq_true, if_false,
        hu, hloop]

/-- Counterexample for C4 as stated: mmap over the empty byte range
[4096, 4096) succeeds (it pushes an area holding zero pages), the immediate
munmap over the same range also succeeds, but the extra empty area survives,
so the set of areas differs from the one before the mmap. -/
theorem c4_counterexample_empty_range :
    (MemorySet.mmap MemorySet.new_bare faInit 4096 4096 permRWU).1 = none ∧
    (MemorySet.munmap (MemorySet.mmap MemorySet.new_bare faInit 4096 4096 permRWU).2.1
      (MemorySet.mmap MemorySet.new_bare faInit 4096 4096 permRWU).2.2 4096 4096).1 = none ∧
    (MemorySet.munmap (MemorySet.mmap MemorySet.new_bare faInit 4096 4096 permRWU).2.1
      (MemorySet.mmap MemorySet.new_bare faInit 4096 4096 permRWU).2.2 4096 4096).2.1.areas
      ≠ MemorySet.new_bare.areas := by decide

/-- Witness for C4: a concrete nonempty round trip over pages [10, 20) on an
empty address space returns it to the empty state. -/
theorem c4_witness :
    MemorySet.munmap
      (MemorySet.mmap MemorySet.new_bare faInit (10 * PAGE_SIZE) (20 * PAGE_SIZE) permRWU).2.1
      (MemorySet.mmap MemorySet.new_bare faInit (10 * PAGE_SIZE) (20 * PAGE_SIZE) permRWU).2.2
      (10 * PAGE_SIZE) (20 * PAGE_SIZE) = (none, MemorySet.new_bare, faInit) :=
  c4_mmap_then_munmap_roundtrip MemorySet.new_bare faInit (10 * PAGE_SIZE) (20 * PAGE_SIZE)
    permRWU (by decide) (by decide)

theorem pages_by_len_one (v : Nat) : (VPNRange.by_len v 1).pages = [v] := by
  simp [VPNRange.pages, VPNRange.by_len, List.range_succ]

theorem findEnsure_fresh (vpn f : Nat) (fa' : FrameAllocator) :
    ∀ (areas : List MapArea) (pt : PageTable) (fa : FrameAllocator) (a : MapArea),
    firstContaining areas vpn = some a →
    a.map_type = MapType.Framed →
    lookupFrames a.frames vpn = none →
    PageTable.lookup pt vpn = none →
    FrameAllocator.alloc fa = some (f, fa') →
    ∃ areas',
      MemorySet.findEnsure vpn areas pt fa
        = (none, areas', (vpn, ⟨f, a.perm⟩) :: pt, fa') ∧
      MemorySet.findEnsure vpn areas' ((vpn, ⟨f, a.perm⟩) :: pt) fa'
        = (none, areas', (vpn, ⟨f, a.perm⟩) :: pt, fa')
  | [], pt, fa, a, hfind, _, _, _, _ => by cases hfind
  | b :: rest, pt, fa, a, hfind, hty, hfr, hpt, halloc => by
    by_cases hb : (MapArea.get_range b).contains vpn = true
    · simp only [MapArea.get_range] at hb
      have hab : b = a := by
        simp only [firstContaining, MapArea.get_range, hb, if_true,
          Option.some.injEq] at hfind
        exact hfind
      subst hab
      refine ⟨{ b with frames := (vpn, f) :: b.frames } :: rest, ?_, ?_⟩
      · simp only [MemorySet.findEnsure, MapArea.get_range, hb, if_true,
          MapArea.ensure_range, hty, pages_by_len_one, MapArea.ensurePages, hfr,
          halloc, PageTable.map, hpt]
      · have hlf : lookupFrames ((vpn, f) :: b.frames) vpn = some f := by
          simp [lookupFrames]
        simp only [MemorySet.findEnsure, MapArea.get_range, hb, if_true,
          MapArea.ensure_range, hty, pages_by_len_one, MapArea.ensurePages, hlf]
    · rw [Bool.not_eq_true] at hb
      simp only [MapArea.get_range] at hb
      have hfind' : firstContaining rest vpn = some a := by
        simp only [firstContaining, MapArea.get_range, hb, Bool.false_eq_true,
          if_false] at hfind
        exact hfind
      obtain ⟨areas'', h1, h2⟩ :=
        findEnsure_fresh vpn f fa' rest pt fa a hfind' hty hfr hpt halloc
      refine ⟨b :: areas'', ?_, ?_⟩
      · simp only [MemorySet.findEnsure, MapArea.get_range, hb, Bool.false_eq_true,
          if_false, h1]
      · simp only [MemorySet.findEnsure, MapArea.get_range, hb, Bool.false_eq_true,
          if_false, h2]

/-- C6: translate on a page of a lazily mapped, never-touched area (no owned
frame, no installed entry) succeeds by allocating the next free frame and
installing it, and a second translate of the same page returns the very same
entry — the same physical page number — while changing nothing further. -/
theorem c6_translate_idempotent_after_fault (ms : MemorySet) (fa : FrameAllocator)
    (vpn : Nat) (a : MapArea) (f : Nat) (fa' : FrameAllocator)
    (hfind : firstContaining ms.areas vpn = some a)
    (hty : a.map_type = MapType.Framed)
    (hfr : lookupFrames a.frames vpn = none)
    (hpt : PageTable.lookup ms.page_table vpn = none)
    (halloc : FrameAllocator.alloc fa = some (f, fa')) :
    (MemorySet.translate ms fa vpn).1 = Except.ok ⟨f, a.perm⟩ ∧
    (MemorySet.translate (MemorySet.translate ms fa vpn).2.1
      (MemorySet.translate ms fa vpn).2.2 vpn).1 = Except.ok ⟨f, a.perm⟩ ∧
    (MemorySet.translate (MemorySet.translate ms fa vpn).2.1
      (MemorySet.translate ms fa vpn).2.2 vpn).2 = (MemorySet.translate ms fa vpn).2 := by
  obtain ⟨areas', h1, h2⟩ :=
    findEnsure_fresh vpn f fa' ms.areas ms.page_table fa a hfind hty hfr hpt halloc
  have htr : PageTable.translate ((vpn, (⟨f, a.perm⟩ : PageTableEntry)) :: ms.page_table) vpn
      = Except.ok ⟨f, a.perm⟩ := by
    simp [PageTable.translate, PageTable.lookup]
  refine ⟨?_, ?_, ?_⟩
  · simp only [MemorySet.translate, h1, htr]
  · simp only [MemorySet.translate, h1, h2, htr]
  · simp only [MemorySet.translate, h1, h2]

/-- Witness for C6: page 13 of the never-touched area of c1Ms faults in frame
0 and the second translate returns the same entry. -/
theorem c6_witness :
    (MemorySet.translate c1Ms faInit 13).1 = Except.ok ⟨0, permRWU⟩ ∧
    (MemorySet.translate (MemorySet.translate c1Ms faInit 13).2.1
      (MemorySet.translate c1Ms faInit 13).2.2 13).1 = Except.ok ⟨0, permRWU⟩ := by
  have h := c6_translate_idempotent_after_fault c1Ms faInit 13
    ⟨⟨10, 20⟩, MapType.Framed, permRWU, []⟩ 0 ⟨1, 8, []⟩
    (by decide) (by decide) (by decide) (by decide) (by decide)
  exact ⟨h.1, h.2.1⟩
